import Mathlib

/-!
# GoSuki core — shallow embedding and verification

This file embeds the bookmark engine's path handling, browser detection,
content hashing, logical clock and database initialization logic, and proves
the stated specification properties about them.

OS interactions (environment variables, home directory lookup, `stat`,
symlink resolution) are modelled as an explicit environment record `OSEnv`;
pure Go standard-library path functions (`filepath.Clean`, `filepath.Join`,
`strings.Join`) are translated concretely.
-/

set_option maxRecDepth 10000

deriving instance DecidableEq for Except

/-- Outcome of a Go function returning `(T, error)`, with an explicit case
for a runtime panic (e.g. an out-of-bounds string index). -/
inductive GoResult (α : Type) where
  | ok (val : α)
  | err (msg : String)
  | panic
deriving DecidableEq, Repr

/-- Sequencing of fallible Go computations: errors and panics propagate. -/
def goBind {α β : Type} (r : GoResult α) (f : α → GoResult β) : GoResult β :=
  match r with
  | .ok v => f v
  | .err m => .err m
  | .panic => .panic

/-- The OS environment visible to the program: `os.UserHomeDir`
(`none` models failure), `os.ExpandEnv`, `os.Getenv`, `os.Stat`
(`.error` = stat failed, `.ok b` = entry exists with IsDir = `b`) and
`filepath.EvalSymlinks` (`.error` models a resolution failure). -/
structure OSEnv where
  homeDir : Option String
  expandEnv : String → String
  getenv : String → String
  stat : String → Except String Bool
  evalSymlinks : String → Except String String

/-- Go `strings.Join(elems, sep)`. -/
def stringsJoin (sep : String) : List String → String
  | [] => ""
  | [s] => s
  | s :: rest => s ++ sep ++ stringsJoin sep rest

/-- Is the cursor at the end of a path element: end of input or a `/`. -/
def atElemEnd (rest : List Char) : Prop :=
  rest = [] ∨ rest.head? = some '/'

instance (rest : List Char) : Decidable (atElemEnd rest) := by
  unfold atElemEnd; infer_instance

/-- The backtracking step of Go `filepath.Clean` for a `..` element:
`out.w--` followed by popping while above `dotdot` and not at a `/`.
The output buffer is kept in reverse. -/
def cleanBacktrackLoop (dotdot : Nat) (last : Char) : List Char → List Char
  | [] => []
  | c :: rest =>
    if rest.length + 1 > dotdot ∧ last ≠ '/' then cleanBacktrackLoop dotdot c rest
    else c :: rest

/-- Pop the last path element (Go `filepath.Clean`, case `..` with
`out.w > dotdot`). -/
def cleanBacktrack (dotdot : Nat) : List Char → List Char
  | [] => []
  | c :: rest => cleanBacktrackLoop dotdot c rest

/-- Main loop of Go `filepath.Clean` (unix separator), output buffer
in reverse. The fuel argument only drives structural recursion; one unit
is consumed per iteration and every iteration consumes at least one input
character, so `fuel = input length` never runs out. -/
def cleanLoop (rooted : Bool) : Nat → List Char → List Char → Nat → List Char
  | 0, _, out, _ => out
  | _ + 1, [], out, _ => out
  | fuel + 1, c :: rest, out, dotdot =>
    if c = '/' then
      cleanLoop rooted fuel rest out dotdot
    else if c = '.' ∧ atElemEnd rest then
      cleanLoop rooted fuel rest out dotdot
    else if c = '.' ∧ rest.head? = some '.' ∧ atElemEnd rest.tail then
      if out.length > dotdot then
        cleanLoop rooted fuel rest.tail (cleanBacktrack dotdot out) dotdot
      else if rooted = false then
        let out' := '.' :: '.' :: (if out.length > 0 then '/' :: out else out)
        cleanLoop rooted fuel rest.tail out' out'.length
      else
        cleanLoop rooted fuel rest.tail out dotdot
    else
      let seg := (c :: rest).takeWhile (fun x => x ≠ '/')
      let rest' := (c :: rest).dropWhile (fun x => x ≠ '/')
      let out' := seg.reverse ++
        (if (rooted = true ∧ out.length ≠ 1) ∨ (rooted = false ∧ out.length ≠ 0)
          then '/' :: out else out)
      cleanLoop rooted fuel rest' out' dotdot

/-- Go `path/filepath.Clean` on unix (`FromSlash` is the identity). -/
def cleanGo (path : String) : String :=
  if path = "" then "."
  else
    let cs := path.data
    let rooted := cs.head? = some '/'
    let out :=
      if rooted then cleanLoop true cs.tail.length cs.tail ['/'] 1
      else cleanLoop false cs.length cs [] 0
    if out = [] then "." else String.mk out.reverse

/-- Go `path/filepath.Join`: skip leading empty elements, join the rest
(including later empty ones) with `/` and clean the result. -/
def joinGo (elems : List String) : String :=
  match elems.dropWhile (fun e => e = "") with
  | [] => ""
  | es => cleanGo (stringsJoin "/" es)

/-- Go `utils.DirExists`: `(info.IsDir(), nil)` on a successful stat,
`(false, err)` otherwise. -/
def DirExists (env : OSEnv) (path : String) : Bool × Option String :=
  match env.stat path with
  | .error e => (false, some e)
  | .ok isDir => (isDir, none)

/-- Go `utils.ExpandPath`: guards only the empty argument list, expands
environment variables over the joined path, replaces a leading `~` by the
home directory, and resolves symlinks. Indexing `path[0]` on an empty
expanded path is a runtime panic. -/
def ExpandPath (env : OSEnv) (paths : List String) : GoResult String :=
  if paths.length = 0 then .err "no path provided"
  else
    match env.homeDir with
    | none => .err "no home dir"
    | some homedir =>
      let path := env.expandEnv (joinGo paths)
      if path = "" then .panic
      else
        let path' := if path.front = '~' then joinGo [homedir, path.drop 1] else path
        match env.evalSymlinks path' with
        | .ok p => .ok p
        | .error e => .err e

/-- Go `utils.ExpandOnly`: additionally guards an empty first argument and
does not resolve symlinks. -/
def ExpandOnly (env : OSEnv) (paths : List String) : GoResult String :=
  if paths.length = 0 then .err "no path provided"
  else if (paths.headI).length = 0 then .err "no path provided"
  else
    match env.homeDir with
    | none => .err "no home dir"
    | some homedir =>
      let path := env.expandEnv (joinGo paths)
      if path = "" then .panic
      else
        let path' := if path.front = '~' then joinGo [homedir, path.drop 1] else path
        .ok path'

/-- Symlink resolution step as a `GoResult` computation (the tail of
`ExpandPath` after expansion). -/
def evalSymlinksR (env : OSEnv) (path : String) : GoResult String :=
  match env.evalSymlinks path with
  | .ok p => .ok p
  | .error e => .err e

/-! ## Browser definitions (`pkg/browsers`) -/

/-- Browser engine families (`pkg/browsers/base.go`). -/
inductive BrowserFamily where
  | mozilla
  | chromeBased
  | qutebrowser
deriving DecidableEq, Repr

/-- A declarative browser definition (`pkg/browsers/base.go`). -/
structure BrowserDef where
  flavour : String
  family : BrowserFamily
  baseDir : String
  snapDir : String
  flatpakDir : String

/-- Go `isValidDir`: empty directories are invalid; expansion errors are
logged and yield `false`; otherwise the boolean of `DirExists` is returned
(its error is only logged). A panic inside `ExpandOnly` propagates. -/
def isValidDir (env : OSEnv) (dir : String) (_ptype : String) : GoResult Bool :=
  if dir = "" then .ok false
  else
    match ExpandOnly env [dir] with
    | .err _ => .ok false
    | .panic => .panic
    | .ok normDir => .ok (DirExists env normDir).1

/-- Go `BrowserDef.GetBaseDir`: the unnormalized effective base directory,
preferring a valid flatpak directory, then a valid snap directory, then the
plain base directory. -/
def BrowserDef.GetBaseDir (env : OSEnv) (b : BrowserDef) : GoResult String :=
  if b.flatpakDir ≠ "" then
    match isValidDir env b.flatpakDir "flat" with
    | .panic => .panic
    | .err m => .err m
    | .ok true => .ok b.flatpakDir
    | .ok false =>
      if b.snapDir ≠ "" then
        match isValidDir env b.snapDir "snap" with
        | .panic => .panic
        | .err m => .err m
        | .ok true => .ok b.snapDir
        | .ok false => .ok b.baseDir
      else .ok b.baseDir
  else if b.snapDir ≠ "" then
    match isValidDir env b.snapDir "snap" with
    | .panic => .panic
    | .err m => .err m
    | .ok true => .ok b.snapDir
    | .ok false => .ok b.baseDir
  else .ok b.baseDir

/-- Go `BrowserDef.ExpandBaseDir`: same selection as `GetBaseDir`, with the
selected directory passed through `ExpandPath`. -/
def BrowserDef.ExpandBaseDir (env : OSEnv) (b : BrowserDef) : GoResult String :=
  if b.flatpakDir ≠ "" then
    match isValidDir env b.flatpakDir "flat" with
    | .panic => .panic
    | .err m => .err m
    | .ok true => ExpandPath env [b.flatpakDir]
    | .ok false =>
      if b.snapDir ≠ "" then
        match isValidDir env b.snapDir "snap" with
        | .panic => .panic
        | .err m => .err m
        | .ok true => ExpandPath env [b.snapDir]
        | .ok false => ExpandPath env [b.baseDir]
      else ExpandPath env [b.baseDir]
  else if b.snapDir ≠ "" then
    match isValidDir env b.snapDir "snap" with
    | .panic => .panic
    | .err m => .err m
    | .ok true => ExpandPath env [b.snapDir]
    | .ok false => ExpandPath env [b.baseDir]
  else ExpandPath env [b.baseDir]

/-- Go `BrowserDef.Detect` (`pkg/browsers/base.go`): when `ExpandBaseDir`
fails the error is only logged and control falls through to `return true`;
when it succeeds, `false` is returned iff `DirExists` errored or reported a
non-directory. -/
def BrowserDef.Detect (env : OSEnv) (b : BrowserDef) : GoResult Bool :=
  match b.ExpandBaseDir env with
  | .panic => .panic
  | .err _ => .ok true
  | .ok dir =>
    let r := DirExists env dir
    if r.2.isSome ∨ r.1 = false then .ok false else .ok true

/-! ## Database errors, lock handling and initialization (`database` pkg) -/

/-- Go `DBError`: a database name and the wrapped error message. -/
structure DBError where
  dbName : String
  errMsg : String
deriving DecidableEq, Repr

/-- Go `DBErr(dbName, err)`: builds `DBError{Err: err}` — the `dbName`
argument is not assigned to the `DBName` field. -/
def DBErr (dbName : String) (err : String) : DBError :=
  { dbName := "", errMsg := err }

/-- Go `DBError.Error()`: `fmt.Sprintf("<%s>: %s", e.DBName, e.Err)`. -/
def DBError.error (e : DBError) : String :=
  "<" ++ e.dbName ++ ">: " ++ e.errMsg

/-- Go `DBType`. -/
inductive DBType where
  | inMemory
  | regularFile
deriving DecidableEq, Repr

/-- Outcome of `db.open()` (driver open + ping): success, a sqlite error
with its result code, or some other error. `sqlite3.ErrBusy` is code 5. -/
inductive OpenOutcome where
  | ok
  | sqliteErr (code : Nat) (msg : String)
  | otherErr (msg : String)
deriving DecidableEq, Repr

/-- SQLITE_BUSY result code (`sqlite3.ErrBusy`). -/
def sqliteErrBusy : Nat := 5

/-- The `DB` record: name, current handle (`none` = not opened), database
type, and the outcomes of its `LockChecker.Locked()` probe and of
`db.open()`, modelled as oracle fields since both interact with the OS. -/
structure DB where
  name : String
  handle : Option Unit
  dbType : DBType
  lockerResult : Except String Bool
  openResult : OpenOutcome

/-- Result of `DB.Init`: the updated DB, the distinguished `ErrVfsLocked`
error, or a wrapped `DBError`. -/
inductive InitResult where
  | ok (db : DB)
  | errVfsLocked
  | dbError (name : String) (msg : String)

/-- The open phase of `DB.Init`: `err := db.open()`; a sqlite error with
code `ErrBusy` maps to `ErrVfsLocked`; any other error is wrapped in a
`DBError`; on success the handle is set. -/
def DB.openPhase (db : DB) : InitResult :=
  match db.openResult with
  | .ok => .ok { db with handle := some () }
  | .sqliteErr code msg =>
    if code = sqliteErrBusy then .errVfsLocked else .dbError db.name msg
  | .otherErr msg => .dbError db.name msg

/-- Go `DB.Init`: a no-op if the handle is already set; for a regular file
the VFS lock probe runs first (`ErrVfsLocked` if locked, `DBError` if the
probe itself fails); then the database is opened. -/
def DB.Init (db : DB) : InitResult :=
  if db.handle.isSome then .ok db
  else
    match db.dbType with
    | .regularFile =>
      match db.lockerResult with
      | .error e => .dbError db.name e
      | .ok true => .errVfsLocked
      | .ok false => db.openPhase
    | .inMemory => db.openPhase

/-- The database handle carried by an `InitResult`, if any. -/
def InitResult.resultDB : InitResult → Option DB
  | .ok db => some db
  | _ => none

/-! ## Lamport clock -/

/-- The process-wide Lamport clock state. -/
structure LamportClock where
  internal : Nat

/-- Modelled from the spec: the implementation of `Clock.Tick` is not in
the provided sources (only its caller `sqlTickClock` is). Per §4.1:
"Exposes `tick(previous: u64) -> u64` returning `max(internal, previous)
+ 1` and atomically updating internal." Modelled as explicit state
passing: returns the new value and the updated clock. -/
def LamportClock.Tick (c : LamportClock) (previous : Nat) : Nat × LamportClock :=
  let v := max c.internal previous + 1
  (v, { internal := v })

/-- Go `sqlTickClock`: ticks the local node's lamport clock and returns
the current clock number (state passed explicitly). -/
def sqlTickClock (c : LamportClock) (previous : Nat) : Nat × LamportClock :=
  c.Tick previous

/-! ## Content hashing: xxHash64 (`xhsum`, `SQLxxHash`)

The `xxhash.ChecksumString64` dependency is the reference XXH64 algorithm
with seed 0, translated here over `Nat` with explicit reduction modulo
`2 ^ 64`. Byte strings are the UTF-8 encodings of Go strings. -/

/-- Reduce modulo `2 ^ 64` (uint64 arithmetic). -/
def mask64 (n : Nat) : Nat := n % 2 ^ 64

/-- Rotate a 64-bit value left by `r` bits (`r < 64`). -/
def rotl64 (x r : Nat) : Nat :=
  x % 2 ^ (64 - r) * 2 ^ r + x / 2 ^ (64 - r)

def xxPrime1 : Nat := 11400714785074694791
def xxPrime2 : Nat := 14029467366897019727
def xxPrime3 : Nat := 1609587929392839161
def xxPrime4 : Nat := 9650029242287828579
def xxPrime5 : Nat := 2870177450012600261

/-- XXH64 round: `rotl(acc + lane * P2, 31) * P1`. -/
def xxRound (acc lane : Nat) : Nat :=
  mask64 (rotl64 (mask64 (acc + lane * xxPrime2)) 31 * xxPrime1)

/-- XXH64 merge round: `(h ^ round(0, v)) * P1 + P4`. -/
def xxMergeRound (h v : Nat) : Nat :=
  mask64 ((h ^^^ xxRound 0 v) * xxPrime1 + xxPrime4)

/-- Little-endian value of a byte list. -/
def leBytes : List Nat → Nat
  | [] => 0
  | b :: rest => b + 256 * leBytes rest

/-- The 32-byte stripe loop of XXH64. Fuel-driven structural recursion;
fuel `= input length` is always sufficient. -/
def xxStripes : Nat → Nat × Nat × Nat × Nat → List Nat → (Nat × Nat × Nat × Nat) × List Nat
  | 0, vs, bs => (vs, bs)
  | fuel + 1, (v1, v2, v3, v4), bs =>
    if bs.length ≥ 32 then
      xxStripes fuel
        (xxRound v1 (leBytes (bs.take 8)),
         xxRound v2 (leBytes ((bs.drop 8).take 8)),
         xxRound v3 (leBytes ((bs.drop 16).take 8)),
         xxRound v4 (leBytes ((bs.drop 24).take 8)))
        (bs.drop 32)
    else ((v1, v2, v3, v4), bs)

/-- The 8-byte tail loop of XXH64. -/
def xxTail8 : Nat → Nat → List Nat → Nat × List Nat
  | 0, h, bs => (h, bs)
  | fuel + 1, h, bs =>
    if bs.length ≥ 8 then
      xxTail8 fuel
        (mask64 (rotl64 (h ^^^ xxRound 0 (leBytes (bs.take 8))) 27 * xxPrime1 + xxPrime4))
        (bs.drop 8)
    else (h, bs)

/-- The byte tail loop of XXH64. -/
def xxTail1 : Nat → Nat → List Nat → Nat
  | 0, h, _ => h
  | fuel + 1, h, bs =>
    match bs with
    | [] => h
    | b :: rest =>
      xxTail1 fuel (mask64 (rotl64 (h ^^^ mask64 (b * xxPrime5)) 11 * xxPrime1)) rest

/-- XXH64 final avalanche. -/
def xxAvalanche (h : Nat) : Nat :=
  let h1 := h ^^^ h / 2 ^ 33
  let h2 := mask64 (h1 * xxPrime2)
  let h3 := h2 ^^^ h2 / 2 ^ 29
  let h4 := mask64 (h3 * xxPrime3)
  h4 ^^^ h4 / 2 ^ 32

/-- XXH64 with seed 0 over a byte list. -/
def xx64 (bytes : List Nat) : Nat :=
  let n := bytes.length
  let (h0, rest) :=
    if n ≥ 32 then
      let (vs, rest) :=
        xxStripes n
          (mask64 (xxPrime1 + xxPrime2), xxPrime2, 0, mask64 (2 ^ 64 - xxPrime2))
          bytes
      let (v1, v2, v3, v4) := vs
      let h := mask64 (rotl64 v1 1 + rotl64 v2 7 + rotl64 v3 12 + rotl64 v4 18)
      (xxMergeRound (xxMergeRound (xxMergeRound (xxMergeRound h v1) v2) v3) v4, rest)
    else (xxPrime5, bytes)
  let h1 := mask64 (h0 + n)
  let (h2, rest2) := xxTail8 rest.length h1 rest
  let (h3, rest3) :=
    if rest2.length ≥ 4 then
      (mask64 (rotl64 (h2 ^^^ mask64 (leBytes (rest2.take 4) * xxPrime1)) 23 * xxPrime2 + xxPrime3),
       rest2.drop 4)
    else (h2, rest2)
  xxAvalanche (xxTail1 rest3.length h3 rest3)

/-- UTF-8 encoding of a single code point. -/
def utf8Char (c : Char) : List Nat :=
  let n := c.toNat
  if n < 0x80 then [n]
  else if n < 0x800 then [0xC0 + n / 0x40, 0x80 + n % 0x40]
  else if n < 0x10000 then
    [0xE0 + n / 0x1000, 0x80 + n / 0x40 % 0x40, 0x80 + n % 0x40]
  else
    [0xF0 + n / 0x40000, 0x80 + n / 0x1000 % 0x40, 0x80 + n / 0x40 % 0x40,
     0x80 + n % 0x40]

/-- The UTF-8 bytes of a string (a Go string's bytes). -/
def utf8Bytes (s : String) : List Nat :=
  (s.data.map utf8Char).flatten

/-- Go `SQLxxHash`: `fmt.Sprintf("%d", xxhash.ChecksumString64(in))`. -/
def SQLxxHash (input : String) : String :=
  Nat.repr (xx64 (utf8Bytes input))

/-- Go `xhsum`: the content hash of a bookmark, over
`fmt.Sprintf("%s+%s+%s+%s", url, metadata, tags, desc)`. -/
def xhsum (url metadata tags desc : String) : String :=
  SQLxxHash (url ++ "+" ++ metadata ++ "+" ++ tags ++ "+" ++ desc)

/-! ## Configuration defaults (`database.init`, `utils.GetDataDir`) -/

/-- Go `utils.GetDataDir`: `$XDG_DATA_HOME` when non-empty, otherwise
`filepath.Join(home, ".local", "share")`. -/
def GetDataDir (env : OSEnv) : Except String String :=
  if env.getenv "XDG_DATA_HOME" ≠ "" then .ok (env.getenv "XDG_DATA_HOME")
  else
    match env.homeDir with
    | none => .error "no home dir"
    | some home => .ok (joinGo [home, ".local", "share"])

/-- Nanoseconds in a second (`time.Second` as a `time.Duration`). -/
def nsPerSecond : Nat := 1000000000

/-- The database configuration record (`dbConfig`): backup interval in
nanoseconds and database file path. -/
structure DbConfig where
  syncIntervalNs : Nat
  path : String
deriving DecidableEq, Repr

/-- Go `database.init`: builds the default configuration; `log.Fatal`
(modelled as `none`) if the data directory cannot be determined. The
defaults are `SyncInterval: time.Second * 4` and
`Path: filepath.Join(dataDir, "gosuki/gosuki.db")`. -/
def initConfig (env : OSEnv) : Option DbConfig :=
  match GetDataDir env with
  | .error _ => none
  | .ok dataDir =>
    some { syncIntervalNs := 4 * nsPerSecond
           path := joinGo [dataDir, "gosuki/gosuki.db"] }

/-! ## Concrete environments and inputs used in witnesses -/

/-- A host environment whose home directory cannot be resolved. -/
def envNoHome : OSEnv :=
  { homeDir := none
    expandEnv := fun s => s
    getenv := fun _ => ""
    stat := fun _ => .error "no such file or directory"
    evalSymlinks := fun s => .ok s }

/-- A well-behaved host environment: home `/home/u`, no variables set,
nothing on disk, symlink resolution the identity. -/
def envW : OSEnv :=
  { homeDir := some "/home/u"
    expandEnv := fun s => s
    getenv := fun _ => ""
    stat := fun _ => .error "no such file or directory"
    evalSymlinks := fun s => .ok s }

/-- A host where the flatpak directory `/var/flatpak/app` exists. -/
def envFlat : OSEnv :=
  { homeDir := some "/home/u"
    expandEnv := fun s => s
    getenv := fun _ => ""
    stat := fun p => if p = "/var/flatpak/app" then .ok true
      else .error "no such file or directory"
    evalSymlinks := fun s => .ok s }

/-- A host with `XDG_DATA_HOME=/data`. -/
def envXdg : OSEnv :=
  { homeDir := some "/home/u"
    expandEnv := fun s => s
    getenv := fun v => if v = "XDG_DATA_HOME" then "/data" else ""
    stat := fun _ => .error "no such file or directory"
    evalSymlinks := fun s => .ok s }

/-- A Mozilla-family browser definition resolved under the home directory. -/
def firefoxDef : BrowserDef :=
  { flavour := "firefox"
    family := .mozilla
    baseDir := "~/.mozilla/firefox"
    snapDir := ""
    flatpakDir := "" }

/-- A Chrome-family browser definition with a flatpak directory. -/
def braveDef : BrowserDef :=
  { flavour := "brave"
    family := .chromeBased
    baseDir := "~/.config/brave"
    snapDir := ""
    flatpakDir := "/var/flatpak/app" }

/-- The spec's notion of a usable package directory: non-empty, and its
(symlink-free) expansion names an existing real directory. -/
def SpecValidDir (env : OSEnv) (d : String) : Prop :=
  d ≠ "" ∧ ∃ nd, ExpandOnly env [d] = .ok nd ∧ env.stat nd = Except.ok true

/-- The spec's notion of an unusable package directory: empty, failing to
expand, or expanding to something that is not an existing real directory. -/
def SpecInvalidDir (env : OSEnv) (d : String) : Prop :=
  d = "" ∨ (∃ m, ExpandOnly env [d] = .err m) ∨
    (∃ nd, ExpandOnly env [d] = .ok nd ∧ env.stat nd ≠ Except.ok true)

/-- A regular-file database whose VFS probe reports a foreign lock. -/
def dbProbeLocked : DB :=
  { name := "gosuki", handle := none, dbType := .regularFile
    lockerResult := .ok true, openResult := .ok }

/-- A regular-file database that passes the probe but gets SQLITE_BUSY
when opening. -/
def dbOpenBusy : DB :=
  { name := "gosuki", handle := none, dbType := .regularFile
    lockerResult := .ok false
    openResult := .sqliteErr sqliteErrBusy "database is locked" }

/-! ## Normal paths are fixed points of `cleanGo` -/

/-- A valid path segment: non-empty, free of separators, and neither `.`
nor `..`. -/
def ValidSeg (seg : List Char) : Prop :=
  seg ≠ [] ∧ seg.all (fun c => c ≠ '/') = true ∧ seg ≠ ['.'] ∧ seg ≠ ['.', '.']

instance (seg : List Char) : Decidable (ValidSeg seg) := by
  unfold ValidSeg
  infer_instance

/-- Segments interleaved with `/` separators. -/
def slashJoin : List (List Char) → List Char
  | [] => []
  | [s] => s
  | s :: rest => s ++ '/' :: slashJoin rest

/-- A normal absolute path: `/` followed by valid segments separated by
single slashes. -/
def NormalAbs (s : String) : Prop :=
  ∃ segs : List (List Char), segs ≠ [] ∧ (∀ seg ∈ segs, ValidSeg seg) ∧
    s.data = '/' :: slashJoin segs

/-- A normal relative path: valid segments separated by single slashes. -/
def NormalRel (s : String) : Prop :=
  ∃ segs : List (List Char), segs ≠ [] ∧ (∀ seg ∈ segs, ValidSeg seg) ∧
    s.data = slashJoin segs

/-! ## Helper lemmas -/

theorem stringData_append (a b : String) : (a ++ b).data = a.data ++ b.data := by
  cases a; cases b; rfl

theorem utf8Bytes_append (a b : String) :
    utf8Bytes (a ++ b) = utf8Bytes a ++ utf8Bytes b := by
  unfold utf8Bytes
  rw [stringData_append, List.map_append, List.flatten_append]

theorem mask64_lt (n : Nat) : mask64 n < 2 ^ 64 :=
  Nat.mod_lt _ (by norm_num)

theorem xxAvalanche_lt (h : Nat) : xxAvalanche h < 2 ^ 64 := by
  unfold xxAvalanche
  exact Nat.xor_lt_two_pow (mask64_lt _)
    (lt_of_le_of_lt (Nat.div_le_self _ _) (mask64_lt _))

theorem xx64_lt (bs : List Nat) : xx64 bs < 2 ^ 64 := by
  unfold xx64
  exact xxAvalanche_lt _

/-! ## Claim theorems -/

/-- C1 (code bug): `Detect` is supposed to return `false` whenever path
expansion of the base directory fails, but the error branch only logs
("skipping") and falls through to `return true`. Witnessed on a browser
definition whose base directory needs `~`-expansion while the home
directory cannot be resolved. -/
theorem claims_C1_bug :
    BrowserDef.ExpandBaseDir envNoHome firefoxDef = GoResult.err "no home dir" ∧
    BrowserDef.Detect envNoHome firefoxDef = GoResult.ok true := by
  constructor <;> decide

/-- C3 (counterexample): the claimed "only if" fails — two bookmarks whose
`(url, title, tags, description)` tuples differ can hash identically,
because a `+` inside a field is indistinguishable from the separator:
`("a+b", "c", "", "")` and `("a", "b+c", "", "")` canonicalize to the same
string `a+b+c++`. -/
theorem claims_C3_counterexample :
    xhsum "a+b" "c" "" "" = xhsum "a" "b+c" "" "" ∧
    ¬(("a+b", "c", "", "") = (("a" : String), ("b+c" : String), ("" : String), ("" : String))) := by
  exact ⟨rfl, by decide⟩

/-- C3 (amended): `xhsum` is a pure function of the `+`-joined canonical
string: whenever two bookmarks' joined strings are byte-equal — in
particular whenever their `(url, title, sorted tags, description)` tuples
are byte-equal — the hashes are equal. The converse fails (see the
counterexample): the joining does not escape `+` inside fields. -/
theorem claims_C3 :
    ∀ url title tags desc url' title' tags' desc' : String,
    url ++ "+" ++ title ++ "+" ++ tags ++ "+" ++ desc
      = url' ++ "+" ++ title' ++ "+" ++ tags' ++ "+" ++ desc' →
    xhsum url title tags desc = xhsum url' title' tags' desc' := by
  intro u t g d u' t' g' d' h
  unfold xhsum
  rw [h]

theorem claims_C3_witness :
    ("p+q" ++ "+" ++ "r" ++ "+" ++ "" ++ "+" ++ ""
      = "p" ++ "+" ++ "q+r" ++ "+" ++ "" ++ "+" ++ "") ∧
    xhsum "p+q" "r" "" "" = xhsum "p" "q+r" "" "" :=
  ⟨by decide, claims_C3 "p+q" "r" "" "" "p" "q+r" "" "" (by decide)⟩

/-- C4: the content hash concatenates url, title, tag string and
description in that order, separated by single `+` bytes (0x2B), encodes
the result as UTF-8 and applies the 64-bit hash to those bytes; the result
is below `2 ^ 64` and, being a pure function, is identical across runs on
equal inputs. -/
theorem claims_C4 :
    ∀ url metadata tags desc : String,
    xhsum url metadata tags desc
      = Nat.repr (xx64 (utf8Bytes url ++ [0x2B] ++ utf8Bytes metadata ++ [0x2B]
          ++ utf8Bytes tags ++ [0x2B] ++ utf8Bytes desc)) ∧
    xx64 (utf8Bytes url ++ [0x2B] ++ utf8Bytes metadata ++ [0x2B]
          ++ utf8Bytes tags ++ [0x2B] ++ utf8Bytes desc) < 2 ^ 64 := by
  intro u m t d
  have hplus : utf8Bytes "+" = [0x2B] := by decide
  constructor
  · unfold xhsum SQLxxHash
    rw [utf8Bytes_append, utf8Bytes_append, utf8Bytes_append, utf8Bytes_append,
      utf8Bytes_append, utf8Bytes_append, hplus]
  · exact xx64_lt _

/-- C5 (spec-modelled clock): `tick(previous)` returns
`max(internal, previous) + 1`, stores the result as the new internal
value, and the result strictly exceeds both the prior internal value and
the argument; consequently a second tick returns a strictly larger value
than the first, so successive versions on one device strictly increase. -/
theorem claims_C5 :
    ∀ (c : LamportClock) (previous : Nat),
    (sqlTickClock c previous).1 = max c.internal previous + 1 ∧
    (sqlTickClock c previous).2.internal = (sqlTickClock c previous).1 ∧
    c.internal < (sqlTickClock c previous).1 ∧
    previous < (sqlTickClock c previous).1 ∧
    (∀ previous', (sqlTickClock c previous).1
      < (sqlTickClock (sqlTickClock c previous).2 previous').1) := by
  intro c p
  refine ⟨rfl, rfl, ?_, ?_, ?_⟩
  · exact Nat.lt_succ_of_le (Nat.le_max_left _ _)
  · exact Nat.lt_succ_of_le (Nat.le_max_right _ _)
  · intro p'
    exact Nat.lt_succ_of_le (Nat.le_max_left _ _)

/-- C6: for a not-yet-opened database, `Init` returns the distinguished
`ErrVfsLocked` when the VFS probe reports a lock or when opening yields
SQLITE_BUSY, and only in those situations; an `ErrVfsLocked` result
carries no handle; and for an in-memory database the lock probe's outcome
is never consulted. -/
theorem claims_C6 :
    ∀ db : DB, db.handle = none →
    ((db.dbType = DBType.regularFile ∧ db.lockerResult = Except.ok true) →
      DB.Init db = InitResult.errVfsLocked) ∧
    (∀ m, db.openResult = OpenOutcome.sqliteErr sqliteErrBusy m →
      (db.dbType = DBType.inMemory ∨ db.lockerResult = Except.ok false) →
      DB.Init db = InitResult.errVfsLocked) ∧
    (DB.Init db = InitResult.errVfsLocked →
      (DB.Init db).resultDB = none ∧
      ((db.dbType = DBType.regularFile ∧ db.lockerResult = Except.ok true) ∨
        ∃ m, db.openResult = OpenOutcome.sqliteErr sqliteErrBusy m)) ∧
    (db.dbType = DBType.inMemory → DB.Init db = db.openPhase) := by
  rintro ⟨nm, hd, dt, lk, op⟩ hh
  dsimp only at hh ⊢
  subst hh
  refine ⟨?_, ?_, ?_, ?_⟩
  · rintro ⟨rfl, rfl⟩
    rfl
  · rintro m rfl (rfl | rfl)
    · rfl
    · cases dt <;> rfl
  · intro hinit
    refine ⟨by rw [hinit]; rfl, ?_⟩
    cases dt
    · cases op with
      | ok => exact absurd hinit (by simp [DB.Init, DB.openPhase])
      | sqliteErr code msg =>
        by_cases hc : code = sqliteErrBusy
        · subst hc
          exact Or.inr ⟨msg, rfl⟩
        · exact absurd hinit (by simp [DB.Init, DB.openPhase, hc])
      | otherErr msg => exact absurd hinit (by simp [DB.Init, DB.openPhase])
    · rcases lk with e | b
      · exact absurd hinit (by simp [DB.Init])
      · cases b
        · cases op with
          | ok => exact absurd hinit (by simp [DB.Init, DB.openPhase])
          | sqliteErr code msg =>
            by_cases hc : code = sqliteErrBusy
            · subst hc
              exact Or.inr ⟨msg, rfl⟩
            · exact absurd hinit (by simp [DB.Init, DB.openPhase, hc])
          | otherErr msg => exact absurd hinit (by simp [DB.Init, DB.openPhase])
        · exact Or.inl ⟨rfl, rfl⟩
  · rintro rfl
    rfl

theorem claims_C6_witness :
    dbProbeLocked.handle = none ∧ dbOpenBusy.handle = none ∧
    DB.Init dbProbeLocked = InitResult.errVfsLocked ∧
    DB.Init dbOpenBusy = InitResult.errVfsLocked :=
  ⟨rfl, rfl,
    (claims_C6 dbProbeLocked rfl).1 ⟨rfl, rfl⟩,
    (claims_C6 dbOpenBusy rfl).2.1 "database is locked" rfl (Or.inr rfl)⟩

/-- C9: `ExpandPath` guards only the empty argument list, so on the single
empty-string argument (with the home directory resolvable) the expanded
path is empty and `path[0]` is an out-of-bounds index — a panic — whereas
`ExpandOnly` returns the "no path provided" error on the same input. -/
theorem claims_C9 :
    ∀ (env : OSEnv) (home : String), env.homeDir = some home →
    env.expandEnv "" = "" →
    ExpandPath env [""] = GoResult.panic ∧
    ExpandOnly env [""] = GoResult.err "no path provided" := by
  intro env home hh he
  have hj : joinGo [""] = "" := by decide
  constructor
  · unfold ExpandPath
    rw [hh, hj, he]
    rfl
  · unfold ExpandOnly
    rfl

theorem claims_C9_witness :
    envW.homeDir = some "/home/u" ∧ envW.expandEnv "" = "" ∧
    ExpandPath envW [""] = GoResult.panic ∧
    ExpandOnly envW [""] = GoResult.err "no path provided" :=
  ⟨rfl, rfl, (claims_C9 envW "/home/u" rfl rfl).1, (claims_C9 envW "/home/u" rfl rfl).2⟩

/-- C10: `DBErr` discards its `dbName` argument — the constructed value's
`DBName` field is empty, the formatted message equals the one built with
an empty name, and always reads `<>: message`. -/
theorem claims_C10 :
    ∀ dbName err : String,
    (DBErr dbName err).dbName = "" ∧
    (DBErr dbName err).error = (DBErr "" err).error ∧
    (DBErr dbName err).error = "<>: " ++ err := by
  intro n e
  exact ⟨rfl, rfl, rfl⟩

/-- C7: for a non-empty (first) path argument, `ExpandPath` performs
exactly the expansion of `ExpandOnly` (environment variables over the
joined path, then a leading `~` replaced by the home directory) followed
by symlink resolution. -/
theorem claims_C7 :
    ∀ (env : OSEnv) (p : String) (ps : List String), p ≠ "" →
    ExpandPath env (p :: ps) = goBind (ExpandOnly env (p :: ps)) (evalSymlinksR env) := by
  intro env p ps hp
  have h1 : ¬(p :: ps).length = 0 := by simp
  have h2 : ¬(p :: ps).headI.length = 0 := by
    simp only [List.headI]
    intro h
    apply hp
    cases p with
    | mk d =>
      cases d with
      | nil => rfl
      | cons c cs => simp [String.length] at h
  unfold ExpandPath ExpandOnly
  rw [if_neg h1, if_neg h2]
  cases henv : env.homeDir with
  | none => rfl
  | some home =>
    dsimp only
    by_cases hpath : env.expandEnv (joinGo (p :: ps)) = ""
    · rw [if_pos hpath, if_pos hpath]
      rfl
    · rw [if_neg hpath, if_neg hpath]
      rfl

theorem claims_C7_witness :
    ("/tmp" ≠ "") ∧
    ExpandPath envW ["/tmp"] = goBind (ExpandOnly envW ["/tmp"]) (evalSymlinksR envW) :=
  ⟨by decide, claims_C7 envW "/tmp" [] (by decide)⟩

theorem dirExists_fst_true_iff (env : OSEnv) (nd : String) :
    (DirExists env nd).1 = true ↔ env.stat nd = Except.ok true := by
  unfold DirExists
  cases hs : env.stat nd with
  | error e => simp
  | ok b => cases b <;> simp

theorem isValidDir_ok_true_iff (env : OSEnv) (d t : String) :
    isValidDir env d t = .ok true ↔ SpecValidDir env d := by
  unfold isValidDir SpecValidDir
  by_cases hd : d = ""
  · simp [hd]
  · rw [if_neg hd]
    cases he : ExpandOnly env [d] with
    | ok nd =>
      simp only [GoResult.ok.injEq, hd, ne_eq, not_false_eq_true, true_and]
      rw [dirExists_fst_true_iff]
      constructor
      · intro h
        exact ⟨nd, rfl, h⟩
      · rintro ⟨nd', hnd', hstat⟩
        cases hnd'
        exact hstat
    | err m => simp [hd]
    | panic => simp [hd]

theorem isValidDir_ok_false_iff (env : OSEnv) (d t : String) :
    isValidDir env d t = .ok false ↔ SpecInvalidDir env d := by
  unfold isValidDir SpecInvalidDir
  by_cases hd : d = ""
  · simp [hd]
  · rw [if_neg hd]
    cases he : ExpandOnly env [d] with
    | ok nd =>
      simp only [GoResult.ok.injEq, hd, false_or]
      constructor
      · intro h
        refine Or.inr ⟨nd, rfl, ?_⟩
        simp only [ne_eq]
        rw [← dirExists_fst_true_iff]
        simp [h]
      · rintro (⟨m, hm⟩ | ⟨nd', hnd', hstat⟩)
        · cases hm
        · cases hnd'
          cases hb : (DirExists env nd).1
          · rfl
          · exact absurd ((dirExists_fst_true_iff env nd).mp hb) hstat
    | err m => simp [hd]
    | panic => simp [hd]

/-- C2: `GetBaseDir` and `ExpandBaseDir` agree on the selected directory
(`ExpandBaseDir` is `GetBaseDir` followed by `ExpandPath` of the
selection), and the selection follows the flatpak → snap → base order:
a non-empty flatpak directory that expands to an existing real directory
wins; otherwise such a snap directory; otherwise the plain base
directory. -/
theorem claims_C2 :
    ∀ (env : OSEnv) (b : BrowserDef),
    BrowserDef.ExpandBaseDir env b
      = goBind (BrowserDef.GetBaseDir env b) (fun dir => ExpandPath env [dir]) ∧
    (SpecValidDir env b.flatpakDir →
      BrowserDef.GetBaseDir env b = .ok b.flatpakDir) ∧
    (SpecInvalidDir env b.flatpakDir → SpecValidDir env b.snapDir →
      BrowserDef.GetBaseDir env b = .ok b.snapDir) ∧
    (SpecInvalidDir env b.flatpakDir → SpecInvalidDir env b.snapDir →
      BrowserDef.GetBaseDir env b = .ok b.baseDir) := by
  intro env b
  refine ⟨?_, ?_, ?_, ?_⟩
  · unfold BrowserDef.ExpandBaseDir BrowserDef.GetBaseDir
    by_cases hf : b.flatpakDir = ""
    · simp only [hf, ne_eq, not_true_eq_false, if_false]
      by_cases hs : b.snapDir = ""
      · simp only [hs, ne_eq, not_true_eq_false, if_false]
        rfl
      · simp only [ne_eq, hs, not_false_eq_true, if_true]
        cases isValidDir env b.snapDir "snap" with
        | ok v => cases v <;> rfl
        | err m => rfl
        | panic => rfl
    · simp only [ne_eq, hf, not_false_eq_true, if_true]
      cases isValidDir env b.flatpakDir "flat" with
      | ok v =>
        cases v
        · by_cases hs : b.snapDir = ""
          · simp only [hs, ne_eq, not_true_eq_false, if_false]
            rfl
          · simp only [ne_eq, hs, not_false_eq_true, if_true]
            cases isValidDir env b.snapDir "snap" with
            | ok w => cases w <;> rfl
            | err m => rfl
            | panic => rfl
        · rfl
      | err m => rfl
      | panic => rfl
  · intro hv
    have hne : b.flatpakDir ≠ "" := hv.1
    have := (isValidDir_ok_true_iff env b.flatpakDir "flat").mpr hv
    unfold BrowserDef.GetBaseDir
    simp only [ne_eq, hne, not_false_eq_true, if_true, this]
  · intro hif hvs
    have hvalid := (isValidDir_ok_false_iff env b.flatpakDir "flat").mpr hif
    have hsne : b.snapDir ≠ "" := hvs.1
    have hstrue := (isValidDir_ok_true_iff env b.snapDir "snap").mpr hvs
    unfold BrowserDef.GetBaseDir
    by_cases hf : b.flatpakDir = ""
    · simp only [hf, ne_eq, not_true_eq_false, if_false, hsne, not_false_eq_true,
        if_true, hstrue]
    · simp only [ne_eq, hf, not_false_eq_true, if_true, hvalid, hsne, hstrue]
  · intro hif his
    have hfvalid := (isValidDir_ok_false_iff env b.flatpakDir "flat").mpr hif
    have hsvalid := (isValidDir_ok_false_iff env b.snapDir "snap").mpr his
    unfold BrowserDef.GetBaseDir
    by_cases hf : b.flatpakDir = ""
    · by_cases hs : b.snapDir = ""
      · simp only [hf, hs, ne_eq, not_true_eq_false, if_false]
      · simp only [hf, ne_eq, not_true_eq_false, if_false, hs, not_false_eq_true,
          if_true, hsvalid]
    · by_cases hs : b.snapDir = ""
      · simp only [ne_eq, hf, not_false_eq_true, if_true, hfvalid, hs,
          not_true_eq_false, if_false]
      · simp only [ne_eq, hf, not_false_eq_true, if_true, hfvalid, hs, hsvalid]

theorem claims_C2_witness :
    SpecValidDir envFlat braveDef.flatpakDir ∧
    BrowserDef.GetBaseDir envFlat braveDef = GoResult.ok "/var/flatpak/app" ∧
    BrowserDef.ExpandBaseDir envFlat braveDef
      = goBind (BrowserDef.GetBaseDir envFlat braveDef)
          (fun dir => ExpandPath envFlat [dir]) := by
  have hv : SpecValidDir envFlat braveDef.flatpakDir :=
    ⟨by decide, "/var/flatpak/app", by decide, by decide⟩
  exact ⟨hv, (claims_C2 envFlat braveDef).2.1 hv, (claims_C2 envFlat braveDef).1⟩

theorem cleanLoop_nil (rooted : Bool) (fuel : Nat) (out : List Char) (dd : Nat) :
    cleanLoop rooted fuel [] out dd = out := by
  cases fuel <;> rfl

theorem cleanLoop_slash (rooted : Bool) (fuel : Nat) (rest out : List Char) (dd : Nat) :
    cleanLoop rooted (fuel + 1) ('/' :: rest) out dd = cleanLoop rooted fuel rest out dd := by
  simp [cleanLoop]

theorem takeWhile_seg (l rem : List Char)
    (hl : l.all (fun c => c ≠ '/') = true) (hrem : atElemEnd rem) :
    (l ++ rem).takeWhile (fun x => decide (x ≠ '/')) = l ∧
    (l ++ rem).dropWhile (fun x => decide (x ≠ '/')) = rem := by
  induction l with
  | nil =>
    simp only [List.nil_append]
    rcases hrem with h | h
    · subst h
      exact ⟨rfl, rfl⟩
    · cases rem with
      | nil => exact ⟨rfl, rfl⟩
      | cons c rs =>
        have hc : c = '/' := by
          simpa [List.head?] using h
        subst hc
        constructor
        · rw [List.takeWhile_cons]
          simp
        · rw [List.dropWhile_cons]
          simp
  | cons c l ih =>
    simp only [List.all_cons, Bool.and_eq_true, decide_eq_true_eq] at hl
    obtain ⟨hc, hl'⟩ := hl
    have := ih hl'
    constructor
    · rw [List.cons_append, List.takeWhile_cons, if_pos (by simp [hc]), this.1]
    · rw [List.cons_append, List.dropWhile_cons, if_pos (by simp [hc])]
      exact this.2

theorem cleanLoop_seg_step (rooted : Bool) (fuel dd : Nat) (seg rem out : List Char)
    (hv : ValidSeg seg) (hrem : atElemEnd rem) :
    cleanLoop rooted (fuel + 1) (seg ++ rem) out dd
      = cleanLoop rooted fuel rem
          (seg.reverse ++
            (if (rooted = true ∧ out.length ≠ 1) ∨ (rooted = false ∧ out.length ≠ 0)
              then '/' :: out else out)) dd := by
  obtain ⟨hne, hall, hdot, hdotdot⟩ := hv
  cases seg with
  | nil => exact absurd rfl hne
  | cons c cs =>
    have hall' := hall
    simp only [List.all_cons, Bool.and_eq_true, decide_eq_true_eq] at hall'
    obtain ⟨hc, hcs⟩ := hall'
    have hcond1 : ¬c = '/' := hc
    have hcond2 : ¬(c = '.' ∧ atElemEnd (cs ++ rem)) := by
      rintro ⟨rfl, hend⟩
      cases cs with
      | nil => exact hdot rfl
      | cons c2 cs2 =>
        simp only [List.all_cons, Bool.and_eq_true, decide_eq_true_eq] at hcs
        rcases hend with h | h
        · simp at h
        · simp only [List.cons_append, List.head?] at h
          exact hcs.1 (Option.some.inj h)
    have hcond3 : ¬(c = '.' ∧ (cs ++ rem).head? = some '.' ∧ atElemEnd (cs ++ rem).tail) := by
      rintro ⟨rfl, hh, hend⟩
      cases cs with
      | nil =>
        exact hdot rfl
      | cons c2 cs2 =>
        simp only [List.cons_append, List.head?] at hh
        have hc2 : c2 = '.' := Option.some.inj hh
        subst hc2
        simp only [List.all_cons, Bool.and_eq_true, decide_eq_true_eq] at hcs
        cases cs2 with
        | nil => exact hdotdot rfl
        | cons c3 cs3 =>
          have h3 := hcs.2
          simp only [List.all_cons, Bool.and_eq_true, decide_eq_true_eq] at h3
          simp only [List.cons_append, List.tail] at hend
          rcases hend with h | h
          · simp at h
          · simp only [List.head?] at h
            exact h3.1 (Option.some.inj h)
    rw [List.cons_append]
    simp only [cleanLoop]
    rw [if_neg hcond1, if_neg hcond2, if_neg hcond3]
    rw [← List.cons_append]
    rw [(takeWhile_seg (c :: cs) rem hall hrem).1,
      (takeWhile_seg (c :: cs) rem hall hrem).2]

theorem cleanLoop_segments (segs : List (List Char)) :
    segs ≠ [] → (∀ seg ∈ segs, ValidSeg seg) →
    ∀ (fuel : Nat) (out : List Char) (dd : Nat),
    (slashJoin segs).length ≤ fuel → 2 ≤ out.length →
    cleanLoop true fuel (slashJoin segs) out dd
      = (slashJoin segs).reverse ++ '/' :: out := by
  induction segs with
  | nil => intro h; exact absurd rfl h
  | cons s rest ih =>
    intro _ hv fuel out dd hfuel hout
    have hvs : ValidSeg s := hv s (by simp)
    have hslen : 1 ≤ s.length := by
      cases s with
      | nil => exact absurd rfl hvs.1
      | cons a l => simp
    cases rest with
    | nil =>
      have hj : slashJoin [s] = s := rfl
      rw [hj] at hfuel ⊢
      obtain ⟨f, rfl⟩ : ∃ f, fuel = f + 1 := ⟨fuel - 1, by omega⟩
      have step := cleanLoop_seg_step true f dd s [] out hvs (Or.inl rfl)
      rw [List.append_nil] at step
      rw [step, cleanLoop_nil, if_pos (Or.inl ⟨rfl, by omega⟩)]
    | cons s2 rest2 =>
      have hj : slashJoin (s :: s2 :: rest2) = s ++ '/' :: slashJoin (s2 :: rest2) := rfl
      rw [hj] at hfuel ⊢
      have hlen2 : 1 ≤ (slashJoin (s2 :: rest2)).length ∨ True := Or.inr trivial
      obtain ⟨f, rfl⟩ : ∃ f, fuel = f + 2 := by
        refine ⟨fuel - 2, ?_⟩
        have hL := hfuel
        simp only [List.length_append, List.length_cons] at hL
        omega
      rw [show f + 2 = (f + 1) + 1 from rfl]
      rw [cleanLoop_seg_step true (f + 1) dd s ('/' :: slashJoin (s2 :: rest2)) out hvs
        (Or.inr rfl)]
      rw [if_pos (Or.inl ⟨rfl, by omega⟩)]
      rw [cleanLoop_slash]
      rw [ih (by simp) (fun seg hs => hv seg (by simp [hs])) f
        (s.reverse ++ '/' :: out) dd
        (by
          have hL := hfuel
          simp only [List.length_append, List.length_cons] at hL
          omega)
        (by
          simp only [List.length_append, List.length_cons, List.length_reverse]
          omega)]
      simp [List.reverse_append, List.append_assoc]

/-- A normal absolute path is a fixed point of `cleanGo`. -/
theorem cleanGo_normalAbs (s : String) (h : NormalAbs s) : cleanGo s = s := by
  obtain ⟨segs, hne, hv, hdata⟩ := h
  obtain ⟨d⟩ := s
  dsimp only at hdata
  subst hdata
  have hmkne : String.mk ('/' :: slashJoin segs) ≠ "" := by
    intro h0
    have h1 : ('/' :: slashJoin segs) = [] := congrArg String.data h0
    simp at h1
  unfold cleanGo
  rw [if_neg hmkne]
  dsimp only [List.head?, List.tail_cons]
  rw [if_pos rfl]
  cases segs with
  | nil => exact absurd rfl hne
  | cons s1 rest =>
    have hv1 : ValidSeg s1 := hv s1 (by simp)
    have hs1len : 1 ≤ s1.length := by
      cases s1 with
      | nil => exact absurd rfl hv1.1
      | cons a l => simp
    cases rest with
    | nil =>
      have hj : slashJoin [s1] = s1 := rfl
      rw [hj]
      obtain ⟨f, hf⟩ : ∃ f, s1.length = f + 1 := ⟨s1.length - 1, by omega⟩
      rw [hf]
      have step := cleanLoop_seg_step true f 1 s1 [] ['/'] hv1 (Or.inl rfl)
      rw [List.append_nil] at step
      rw [cleanLoop_nil, if_neg (by simp)] at step
      rw [step]
      rw [if_neg (by simp)]
      simp [List.reverse_append]
    | cons s2 rest2 =>
      have hj : slashJoin (s1 :: s2 :: rest2) = s1 ++ '/' :: slashJoin (s2 :: rest2) := rfl
      rw [hj]
      obtain ⟨f, hf⟩ : ∃ f, (s1 ++ '/' :: slashJoin (s2 :: rest2)).length = f + 2 := by
        refine ⟨(s1 ++ '/' :: slashJoin (s2 :: rest2)).length - 2, ?_⟩
        simp only [List.length_append, List.length_cons]
        omega
      rw [hf]
      rw [show f + 2 = (f + 1) + 1 from rfl]
      have step := cleanLoop_seg_step true (f + 1) 1 s1 ('/' :: slashJoin (s2 :: rest2)) ['/']
        hv1 (Or.inr rfl)
      rw [if_neg (by simp)] at step
      rw [cleanLoop_slash] at step
      rw [cleanLoop_segments (s2 :: rest2) (by simp)
        (fun seg hs => hv seg (by simp [hs])) f (s1.reverse ++ ['/']) 1
        (by
          have hL := hf
          simp only [List.length_append, List.length_cons] at hL
          omega)
        (by
          simp only [List.length_append, List.length_reverse, List.length_cons,
            List.length_nil]
          omega)] at step
      rw [step]
      rw [if_neg (by simp)]
      simp [List.reverse_append]

theorem slashJoin_append (xs ys : List (List Char)) (hx : xs ≠ []) (hy : ys ≠ []) :
    slashJoin (xs ++ ys) = slashJoin xs ++ '/' :: slashJoin ys := by
  induction xs with
  | nil => exact absurd rfl hx
  | cons s rest ih =>
    cases rest with
    | nil =>
      cases ys with
      | nil => exact absurd rfl hy
      | cons y yr => rfl
    | cons s2 r2 =>
      have h1 : slashJoin ((s :: s2 :: r2) ++ ys) = s ++ '/' :: slashJoin ((s2 :: r2) ++ ys) := rfl
      rw [h1, ih (by simp)]
      have h2 : slashJoin (s :: s2 :: r2) = s ++ '/' :: slashJoin (s2 :: r2) := rfl
      rw [h2]
      simp [List.append_assoc]

/-- Appending a normal relative path after a separator preserves absolute
normality. -/
theorem normalAbs_append (s t : String) (hs : NormalAbs s) (ht : NormalRel t) :
    NormalAbs (s ++ "/" ++ t) := by
  obtain ⟨xs, hxne, hxv, hxdata⟩ := hs
  obtain ⟨ys, hyne, hyv, hydata⟩ := ht
  refine ⟨xs ++ ys, by simp [hxne], ?_, ?_⟩
  · intro seg hseg
    rcases List.mem_append.mp hseg with h | h
    · exact hxv seg h
    · exact hyv seg h
  · rw [stringData_append, stringData_append, hxdata, hydata]
    rw [slashJoin_append xs ys hxne hyne]
    have hslash : ("/" : String).data = ['/'] := rfl
    rw [hslash]
    simp

theorem slashJoin_ne_nil (segs : List (List Char)) (hne : segs ≠ [])
    (hv : ∀ seg ∈ segs, ValidSeg seg) : slashJoin segs ≠ [] := by
  cases segs with
  | nil => exact absurd rfl hne
  | cons y yr =>
    cases yr with
    | nil => exact (hv y (by simp)).1
    | cons y2 yr2 =>
      have h1 : slashJoin (y :: y2 :: yr2) = y ++ '/' :: slashJoin (y2 :: yr2) := rfl
      rw [h1]
      simp

/-- A `NormalAbs` head followed by normal relative components: `joinGo`
evaluates to plain slash-concatenation and preserves normality. -/
theorem joinGo_cons (s : String) (ts : List String) (hs : NormalAbs s)
    (hts : NormalRel (stringsJoin "/" ts)) :
    joinGo (s :: ts) = s ++ "/" ++ stringsJoin "/" ts ∧
    NormalAbs (s ++ "/" ++ stringsJoin "/" ts) := by
  have hsne : s ≠ "" := by
    obtain ⟨xs, hxne, hxv, hxdata⟩ := hs
    intro h0
    rw [h0] at hxdata
    have h2 : ([] : List Char) = '/' :: slashJoin xs := hxdata
    simp at h2
  refine ⟨?_, normalAbs_append s _ hs hts⟩
  cases ts with
  | nil =>
    obtain ⟨ys, hyne, hyv, hydata⟩ := hts
    have h2 : ([] : List Char) = slashJoin ys := hydata
    exact absurd h2.symm (slashJoin_ne_nil ys hyne hyv)
  | cons t1 tr =>
    unfold joinGo
    rw [List.dropWhile_cons, if_neg (by simp [hsne])]
    exact cleanGo_normalAbs _ (normalAbs_append s _ hs hts)

/-- `NormalAbs` paths are non-empty strings. -/
theorem normalAbs_ne_empty (s : String) (h : NormalAbs s) : s ≠ "" := by
  obtain ⟨xs, hxne, hxv, hxdata⟩ := h
  intro h0
  rw [h0] at hxdata
  have h2 : ([] : List Char) = '/' :: slashJoin xs := hxdata
  simp at h2

/-- The two fixed relative components used by the database defaults. -/
theorem normalRel_gosukiDb : NormalRel (stringsJoin "/" ["gosuki/gosuki.db"]) :=
  ⟨[['g', 'o', 's', 'u', 'k', 'i'], ['g', 'o', 's', 'u', 'k', 'i', '.', 'd', 'b']],
    by decide, by decide, by decide⟩

theorem normalRel_localShare : NormalRel (stringsJoin "/" [".local", "share"]) :=
  ⟨[['.', 'l', 'o', 'c', 'a', 'l'], ['s', 'h', 'a', 'r', 'e']],
    by decide, by decide, by decide⟩

/-- C8: with defaults, the backup interval is 4 seconds and the database
file is `gosuki/gosuki.db` under `$XDG_DATA_HOME` when that variable is a
(normal absolute, hence non-empty) path, and under `~/.local/share`
otherwise. -/
theorem claims_C8 :
    ∀ env : OSEnv,
    (∀ d : String, env.getenv "XDG_DATA_HOME" = d → NormalAbs d →
      initConfig env
        = some { syncIntervalNs := 4 * nsPerSecond, path := d ++ "/gosuki/gosuki.db" }) ∧
    (env.getenv "XDG_DATA_HOME" = "" →
      ∀ home : String, env.homeDir = some home → NormalAbs home →
      initConfig env
        = some { syncIntervalNs := 4 * nsPerSecond,
                 path := home ++ "/.local/share/gosuki/gosuki.db" }) := by
  intro env
  constructor
  · intro d hd hnd
    unfold initConfig GetDataDir
    rw [hd, if_pos (normalAbs_ne_empty d hnd)]
    have hj := (joinGo_cons d ["gosuki/gosuki.db"] hnd normalRel_gosukiDb).1
    have hsj : stringsJoin "/" ["gosuki/gosuki.db"] = "gosuki/gosuki.db" := rfl
    rw [hsj] at hj
    have hfix : d ++ "/" ++ "gosuki/gosuki.db" = d ++ "/gosuki/gosuki.db" := by
      apply String.ext
      rw [stringData_append, stringData_append, stringData_append, List.append_assoc]
      congr 1
    dsimp only
    rw [hj, hfix]
  · intro hx home hh hnh
    unfold initConfig GetDataDir
    rw [hx, if_neg (by simp), hh]
    have hsj : stringsJoin "/" ["gosuki/gosuki.db"] = "gosuki/gosuki.db" := rfl
    have hsj2 : stringsJoin "/" [".local", "share"] = ".local/share" := by decide
    have hj1 := joinGo_cons home [".local", "share"] hnh normalRel_localShare
    rw [hsj2] at hj1
    have hj2 := (joinGo_cons (home ++ "/" ++ ".local/share")
      ["gosuki/gosuki.db"] hj1.2 normalRel_gosukiDb).1
    rw [hsj] at hj2
    have hfix : home ++ "/" ++ ".local/share" ++ "/" ++ "gosuki/gosuki.db"
        = home ++ "/.local/share/gosuki/gosuki.db" := by
      apply String.ext
      rw [stringData_append, stringData_append, stringData_append, stringData_append,
        stringData_append, List.append_assoc, List.append_assoc, List.append_assoc]
      congr 1
    dsimp only
    rw [hj1.1, hj2, hfix]

theorem claims_C8_witness :
    envXdg.getenv "XDG_DATA_HOME" = "/data" ∧ NormalAbs "/data" ∧
    initConfig envXdg
      = some { syncIntervalNs := 4 * nsPerSecond, path := "/data/gosuki/gosuki.db" } ∧
    envW.getenv "XDG_DATA_HOME" = "" ∧ envW.homeDir = some "/home/u" ∧ NormalAbs "/home/u" ∧
    initConfig envW
      = some { syncIntervalNs := 4 * nsPerSecond,
               path := "/home/u/.local/share/gosuki/gosuki.db" } := by
  have hd : NormalAbs "/data" := ⟨[['d', 'a', 't', 'a']], by decide, by decide, by decide⟩
  have hu : NormalAbs "/home/u" :=
    ⟨[['h', 'o', 'm', 'e'], ['u']], by decide, by decide, by decide⟩
  refine ⟨rfl, hd, ?_, rfl, rfl, hu, ?_⟩
  · have h := (claims_C8 envXdg).1 "/data" rfl hd
    rw [h]
    rw [show ("/data" ++ "/gosuki/gosuki.db" : String) = "/data/gosuki/gosuki.db" by decide]
  · have h := (claims_C8 envW).2 rfl "/home/u" rfl hu
    rw [h]
    rw [show ("/home/u" ++ "/.local/share/gosuki/gosuki.db" : String)
      = "/home/u/.local/share/gosuki/gosuki.db" by decide]

example : xx64 (utf8Bytes "") = 17241709254077376921 := by decide
example : xx64 (utf8Bytes "a") = 15154266338359012955 := by decide
example : xx64 (utf8Bytes "abc") = 4952883123889572249 := by decide
example :
    xx64 (utf8Bytes "The quick brown fox jumps over the lazy dog")
      = 7413118829387555912 := by decide

example : cleanGo "/a/b" = "/a/b" := by decide
example : cleanGo "/a//b/" = "/a/b" := by decide
example : cleanGo "/a/../b" = "/b" := by decide
example : cleanGo "a/.." = "." := by decide
example : cleanGo "../a" = "../a" := by decide
example : joinGo ["", ""] = "" := by decide
example : joinGo ["/home/u", ".local", "share"] = "/home/u/.local/share" := by decide
